import Mathlib

/-!
Verification development for the embroidery-categorizer batch pipeline.

The Python sources are embedded shallowly:
* strings are lists of Unicode code points (`PyStr`); Python's `str.lower`
  is modelled on the ASCII range, `str.strip` removes leading and trailing
  whitespace, `str.replace` over single characters is a map or filter;
* the `Category` value object (`domain/value_objects.py`) becomes
  `mkCategory` / `fromAiResponse`, returning `Option` where the constructor
  raises `ValueError`;
* the stitch rasterizer (`infrastructure/pyembroidery_converter.py`)
  becomes a step function over an explicit pen state, with pyembroidery
  stitches modelled as (x, y, command) triples;
* the OpenAI retry loop (`infrastructure/openai_strategy.py`) is driven by
  an oracle list of per-attempt outcomes (network failure or response text);
* the batch orchestrator (`application/services.py`,
  `application/use_cases.py`) is a fold over per-file outcome records that
  also emits an event trace (file-processing events and cleanup events) so
  that temporal claims about cleanup order can be stated.
-/

/-- Python strings modelled as lists of Unicode code points. -/
abbrev PyStr := List Nat

/-- Whitespace recognised by Python's `str.strip` (space, tab, LF, VT, FF, CR). -/
def isPySpace (c : Nat) : Bool :=
  decide (c = 32 ∨ c = 9 ∨ c = 10 ∨ c = 11 ∨ c = 12 ∨ c = 13)

/-- ASCII model of Python's `str.lower` on a single code point. -/
def pyLowerChar (c : Nat) : Nat :=
  if 65 ≤ c ∧ c ≤ 90 then c + 32 else c

/-- Python's `str.lower`. -/
def pyLower (s : PyStr) : PyStr := s.map pyLowerChar

/-- Python's `str.strip`: drop leading and trailing whitespace. -/
def pyStrip (s : PyStr) : PyStr :=
  ((s.dropWhile isPySpace).reverse.dropWhile isPySpace).reverse

/-- Code points of the punctuation removed by `Category.from_ai_response`:
the characters of the Python literal listing dot, comma, bang, question mark,
semicolon, colon, double quote, parens, square brackets and curly brackets. -/
def punctCodes : List Nat := [46, 44, 33, 63, 59, 58, 34, 40, 41, 91, 93, 123, 125]

/-- The sequential `clean_name.replace(char, '')` loop in
`Category.from_ai_response`: remove every punctuation character. -/
def stripPunct (s : PyStr) : PyStr := s.filter (fun c => !decide (c ∈ punctCodes))

/-- The `.replace(' ', '_')` step of `Category.__post_init__`, on one code
point: a space becomes an underscore. -/
def underscoreChar (c : Nat) : Nat := if c = 32 then 95 else c

/-- The `.replace(' ', '_')` step of `Category.__post_init__`. -/
def underscoreSpaces (s : PyStr) : PyStr := s.map underscoreChar

/-- The `Category` value object of `domain/value_objects.py`. -/
structure Category where
  name : PyStr
  confidence : ℚ
deriving DecidableEq

/-- Model of `Category.__post_init__`: reject an empty or whitespace-only name and a
confidence outside [0, 1], then normalize the name by strip, lower and
space-to-underscore.  `none` models the raised `ValueError`. -/
def mkCategory (name : PyStr) (confidence : ℚ) : Option Category :=
  if pyStrip name = [] then none
  else if confidence < 0 ∨ 1 < confidence then none
  else some ⟨underscoreSpaces (pyLower (pyStrip name)), confidence⟩

/-- Model of `Category.from_ai_response`: strip, lowercase, remove punctuation, then
construct the `Category` (which normalizes again). -/
def fromAiResponse (t : PyStr) (confidence : ℚ) : Option Category :=
  mkCategory (stripPunct (pyLower (pyStrip t))) confidence

/-- Model of `Category.is_valid`: the name is non-empty and not whitespace-only. -/
def Category.isValid (c : Category) : Bool :=
  !c.name.isEmpty && !(pyStrip c.name).isEmpty

/-- Code points of the sentinel category name "other". -/
def otherName : PyStr := [111, 116, 104, 101, 114]

/-- The sentinel `Category("other")` used by the classification layer. -/
def otherCategory : Category := ⟨otherName, 1⟩

/-- The stitch-command tags handled by `convert_pes_to_jpg`
(`pyembroidery.STITCH`, `JUMP`, `COLOR_CHANGE`, `TRIM`, `STOP`); `otherOp`
stands for any other pyembroidery command, which falls through both branch
chains in the loop body. -/
inductive StitchCmd
  | stitchOp
  | jumpOp
  | colorChangeOp
  | trimOp
  | stopOp
  | otherOp
deriving DecidableEq

/-- One pyembroidery stitch: an (x, y, command) triple.  pyembroidery always
produces such triples, so the defensive short-row guards of the Python loop
never fire and are not modelled. -/
structure StitchEntry where
  x : Int
  y : Int
  cmd : StitchCmd
deriving DecidableEq

/-- A pixel position on the output canvas. -/
structure Pt where
  x : Int
  y : Int
deriving DecidableEq

/-- A line segment drawn by `draw.line`, with its stroke color. -/
structure Segment where
  src : Pt
  dst : Pt
  color : String
deriving DecidableEq

/-- The fixed rotating palette `colors` of `convert_pes_to_jpg`. -/
def strokePalette : List String :=
  ["black", "red", "blue", "green", "purple", "orange"]

/-- The loop state of the drawing loop: `prev_point`, `stitch_color`, and the
segments drawn so far (in order). -/
structure RenderState where
  prevPoint : Option Pt
  color : String
  segments : List Segment
deriving DecidableEq

/-- Initial state: `prev_point = None`, `stitch_color = "black"`, nothing drawn. -/
def initialRenderState : RenderState := ⟨none, "black", []⟩

/-- One iteration of the drawing loop of `convert_pes_to_jpg`, at enumerate
index `i`, with `tf` the coordinate transform (subtract minimum, scale, pad).
On a color change the palette index is `(i / 100) % len(colors)` and the
anchor is set to the current point; a jump moves the anchor; trim and stop
clear it; a stitch draws from the anchor if one exists; any other command
just moves the anchor. -/
def renderStep (tf : Int → Int → Pt) (i : Nat) (st : RenderState) (s : StitchEntry) :
    RenderState :=
  let current := tf s.x s.y
  match s.cmd with
  | .colorChangeOp =>
      { st with
        color := strokePalette.getD ((i / 100) % strokePalette.length) st.color
        prevPoint := some current }
  | .jumpOp => { st with prevPoint := some current }
  | .trimOp => { st with prevPoint := none }
  | .stopOp => { st with prevPoint := none }
  | .stitchOp =>
      match st.prevPoint with
      | some p =>
          { prevPoint := some current
            color := st.color
            segments := st.segments ++ [⟨p, current, st.color⟩] }
      | none => { st with prevPoint := some current }
  | .otherOp => { st with prevPoint := some current }

/-- The drawing loop `for i, stitch in enumerate(stitches)`. -/
def renderLoop (tf : Int → Int → Pt) : Nat → RenderState → List StitchEntry → RenderState
  | _, st, [] => st
  | i, st, s :: rest => renderLoop tf (i + 1) (renderStep tf i st s) rest

/-- The transformed points of a stitch list under `tf`. -/
def tfPoints (tf : Int → Int → Pt) (l : List StitchEntry) : List Pt :=
  l.map (fun s => tf s.x s.y)

/-- Python's `int()` truncation toward zero on a rational. -/
def pyInt (q : ℚ) : Int := if q < 0 then -(⌊-q⌋) else ⌊q⌋

/-- The converter's configured `image_size` (target max width and height). -/
structure CanvasConfig where
  width : Nat
  height : Nat
deriving DecidableEq

/-- The fixed `padding = 50` of `convert_pes_to_jpg`. -/
def canvasPadding : Nat := 50

/-- Python's `min(x_coords)` over the non-empty coordinate list. -/
def patternMinX (s0 : StitchEntry) (rest : List StitchEntry) : Int :=
  (rest.map StitchEntry.x).foldl min s0.x

/-- Python's `max(x_coords)` over the non-empty coordinate list. -/
def patternMaxX (s0 : StitchEntry) (rest : List StitchEntry) : Int :=
  (rest.map StitchEntry.x).foldl max s0.x

/-- Python's `min(y_coords)` over the non-empty coordinate list. -/
def patternMinY (s0 : StitchEntry) (rest : List StitchEntry) : Int :=
  (rest.map StitchEntry.y).foldl min s0.y

/-- Python's `max(y_coords)` over the non-empty coordinate list. -/
def patternMaxY (s0 : StitchEntry) (rest : List StitchEntry) : Int :=
  (rest.map StitchEntry.y).foldl max s0.y

/-- The scale computation of `convert_pes_to_jpg`: when both pattern sides
are positive, `min(scale_x, scale_y, 1.0)`; otherwise 1.0. -/
def patternScale (cfg : CanvasConfig) (pw ph : Int) : ℚ :=
  if 0 < pw ∧ 0 < ph then
    min (min (((cfg.width : ℚ) - 2 * canvasPadding) / (pw : ℚ))
             (((cfg.height : ℚ) - 2 * canvasPadding) / (ph : ℚ))) 1
  else 1

/-- The coordinate transform applied to every stitch:
`int((v - min) * scale) + padding` on each axis. -/
def stitchTransform (minX minY : Int) (scale : ℚ) : Int → Int → Pt :=
  fun x y =>
    ⟨pyInt (((x - minX : Int) : ℚ) * scale) + canvasPadding,
     pyInt (((y - minY : Int) : ℚ) * scale) + canvasPadding⟩

/-- The outcome of a successful conversion: canvas size, scale, bounding-box
minima and the drawn segments. -/
structure RenderResult where
  imgWidth : Int
  imgHeight : Int
  scale : ℚ
  minX : Int
  minY : Int
  segments : List Segment
deriving DecidableEq

/-- Model of `PyEmbroideryConverter.convert_pes_to_jpg` on a loaded stitch list:
`none` models the `return False` for an empty stitch list ("contains no
embroidery stitches"); with triples the "no valid coordinates" guard never
fires.  Otherwise compute the bounding box, the scale, the canvas size
`int(side * scale) + 2 * padding`, and replay the stitches. -/
def convertPesToJpg (cfg : CanvasConfig) (stitches : List StitchEntry) :
    Option RenderResult :=
  match stitches with
  | [] => none
  | s0 :: rest =>
      let minX := patternMinX s0 rest
      let minY := patternMinY s0 rest
      let pw := patternMaxX s0 rest - minX
      let ph := patternMaxY s0 rest - minY
      let scale := patternScale cfg pw ph
      let tf := stitchTransform minX minY scale
      let final := renderLoop tf 0 initialRenderState (s0 :: rest)
      some
        { imgWidth := pyInt ((pw : ℚ) * scale) + 2 * canvasPadding
          imgHeight := pyInt ((ph : ℚ) * scale) + 2 * canvasPadding
          scale := scale
          minX := minX
          minY := minY
          segments := final.segments }

/-- The retry loop of `OpenAICategorizationStrategy.categorize_image`,
driven by an oracle list of per-attempt outcomes (`none` = the request
raised, `some t` = the response text).  The list length is `max_retries`.
A successful response is preprocessed by `.strip().lower()` and fed to
`Category.from_ai_response`; a `ValueError` there counts as a failed
attempt.  On the last attempt, any failure yields `Category("other")`.
An empty oracle list models `max_retries = 0`, where the Python function
falls off the loop and implicitly returns `None`. -/
def attemptLoop : List (Option PyStr) → Option Category
  | [] => none
  | o :: rest =>
      match o with
      | some t =>
          match fromAiResponse (pyLower (pyStrip t)) 1 with
          | some c => some (if c.isValid then c else otherCategory)
          | none => if rest.isEmpty then some otherCategory else attemptLoop rest
      | none => if rest.isEmpty then some otherCategory else attemptLoop rest

/-- Model of `OpenAICategorizationStrategy.categorize_image`: `none` when the image
file does not exist (the early `return None`), `Category("other")` when the
image cannot be read, otherwise the retry loop. -/
def categorizeImageStrategy (imageExists canRead : Bool)
    (attempts : List (Option PyStr)) : Option Category :=
  if ¬imageExists then none
  else if ¬canRead then some otherCategory
  else attemptLoop attempts

/-- Outcome of a fallible collaborator call: returned True, returned False,
or raised an exception. -/
inductive StepOutcome
  | success
  | failure
  | raised
deriving DecidableEq

/-- One discovered file together with the outcomes its collaborators produce
when it is processed: the converter outcome, the value returned by
`categorization_context.categorize_image` (when the service is available),
and the copy-to-category-folder outcome. -/
structure FileSpec where
  name : String
  renderOutcome : StepOutcome
  classifyResult : Option Category
  copyOutcome : StepOutcome
deriving DecidableEq

/-- Model of `CategorizationService._process_single_file`.  All exceptions are caught
inside and turned into `False`, so the result is a plain Bool plus the
category assigned to the file record (set before the copy step, hence
present even when the copy fails).  A `None` from classification is replaced
by `Category("other")`; an unavailable strategy makes the context raise,
which is caught and yields `False`. -/
def processSingleFile (available : Bool) (f : FileSpec) : Bool × Option Category :=
  match f.renderOutcome with
  | .raised => (false, none)
  | .failure => (false, none)
  | .success =>
      if available then
        let category := f.classifyResult.getD otherCategory
        match f.copyOutcome with
        | .success => (true, some category)
        | .failure => (false, some category)
        | .raised => (false, some category)
      else (false, none)

/-- Observable batch events: a file entering per-file processing, and a
cleanup pass deleting a list of accumulated preview paths. -/
inductive BatchEvent
  | beginFile (name : String)
  | cleanup (paths : List String)
deriving DecidableEq

/-- The temporary preview path created for a file, modelled abstractly as a
function of the display name (`_create_temp_jpg_path`). -/
def tempJpgPath (name : String) : String := name ++ ".jpg"

/-- The `results` dictionary built by
`CategorizationService.categorize_files_in_directory`.  `skippedFiles` is
`none` when the `skipped_files` key is never set (empty directory or
unavailable service). -/
structure BatchResults where
  totalFiles : Nat
  processedFiles : Nat
  failedFiles : Nat
  categoriesFound : Finset PyStr
  errors : List String
  skippedFiles : Option Nat
deriving DecidableEq

/-- Fresh results dictionary. -/
def initResults : BatchResults := ⟨0, 0, 0, ∅, [], none⟩

/-- Orchestrator state: the results dictionary, the accumulated
`temp_images` list, and the emitted event trace. -/
structure BatchState where
  results : BatchResults
  tempImages : List String
  trace : List BatchEvent
deriving DecidableEq

/-- The non-skip body of the per-file loop: append the temp path as soon as
it is created, process the file, then update the counters.  Per-file
processing catches its own exceptions, so the `except` branch that would
append to `errors` is unreachable and no error entry is ever added here. -/
def applyFile (available : Bool) (st : BatchState) (f : FileSpec) : BatchState :=
  let r := processSingleFile available f
  { results :=
      { st.results with
        processedFiles :=
          if r.1 then st.results.processedFiles + 1 else st.results.processedFiles
        failedFiles :=
          if r.1 then st.results.failedFiles else st.results.failedFiles + 1
        categoriesFound :=
          if r.1 then
            match r.2 with
            | some c => insert c.name st.results.categoriesFound
            | none => st.results.categoriesFound
          else st.results.categoriesFound }
    tempImages := st.tempImages ++ [tempJpgPath f.name]
    trace := st.trace ++ [.beginFile f.name] }

/-- The per-file loop `for index, file in enumerate(files, 1)`: a file is
skipped when `start_after` is supplied and `index <= start_after`. -/
def batchLoop (available : Bool) (startAfter : Option Nat) :
    Nat → List FileSpec → BatchState → BatchState
  | _, [], st => st
  | idx, f :: rest, st =>
      match startAfter with
      | some k =>
          if idx ≤ k then batchLoop available startAfter (idx + 1) rest st
          else batchLoop available startAfter (idx + 1) rest (applyFile available st f)
      | none => batchLoop available startAfter (idx + 1) rest (applyFile available st f)

/-- Model of `CategorizationService._cleanup_temp_images`: when the accumulated list
is non-empty, delete every accumulated preview and clear the list. -/
def runCleanup (st : BatchState) : BatchState :=
  if st.tempImages.isEmpty then st
  else { st with tempImages := [], trace := st.trace ++ [.cleanup st.tempImages] }

/-- Model of `CategorizationService.categorize_files_in_directory`.  An unavailable
service raises before any file is touched; the outer handler runs cleanup
(a no-op on the empty list) and appends the single batch-level error
message.  An empty file list returns before the `skipped_files` key is set
and before cleanup.  Otherwise the loop runs and cleanup happens once, at
the end of the whole batch. -/
def categorizeFilesInDirectory (available : Bool) (files : List FileSpec)
    (startAfter : Option Nat) : BatchState :=
  if available then
    let r0 := { initResults with totalFiles := files.length }
    if files.isEmpty then ⟨r0, [], []⟩
    else
      let r1 := { r0 with skippedFiles := some (startAfter.getD 0) }
      runCleanup (batchLoop available startAfter 1 files ⟨r1, [], []⟩)
  else
    runCleanup
      ⟨{ initResults with errors := ["Categorization service is not available"] }, [], []⟩

/-- Model of `CategorizeFilesUseCase.execute` on valid input and output directories:
run the service, then set `success = failed_files < total_files`. -/
def executeCategorizeFiles (available : Bool) (files : List FileSpec)
    (startAfter : Option Nat) : BatchResults × Bool :=
  let st := categorizeFilesInDirectory available files startAfter
  (st.results, decide (st.results.failedFiles < st.results.totalFiles))

/-- The number of color-change commands in a stitch list. -/
def colorChangeCount (l : List StitchEntry) : Nat :=
  l.countP (fun s => decide (s.cmd = .colorChangeOp))

/-- Formalization of the claim that the palette index is derived from a
counter of color-change events encountered so far: processing the k-th
color-change command (k prior color-change events) leaves the stroke color
at palette entry k mod palette-size. -/
def ccCounterClaim : Prop :=
  ∀ (tf : Int → Int → Pt) (pre : List StitchEntry) (s : StitchEntry),
    s.cmd = .colorChangeOp →
    (renderLoop tf 0 initialRenderState (pre ++ [s])).color =
      strokePalette.getD (colorChangeCount pre % strokePalette.length) "black"

/-- Processing a run of files with no skips: the loop body applied once per
file, in order. -/
def processAll (available : Bool) : List FileSpec → BatchState → BatchState
  | [], st => st
  | f :: rest, st => processAll available rest (applyFile available st f)

/-- The claim that every completed file's preview is deleted before the next
file begins: between any two file-processing events there is a cleanup
event containing the earlier file's preview path. -/
def perFileCleanupClaim (tr : List BatchEvent) : Prop :=
  ∀ i j n1 n2, tr.get? i = some (.beginFile n1) → tr.get? j = some (.beginFile n2) →
    i < j →
    ∃ m ps, i < m ∧ m < j ∧ tr.get? m = some (.cleanup ps) ∧ tempJpgPath n1 ∈ ps

theorem pyLowerChar_idem (c : Nat) : pyLowerChar (pyLowerChar c) = pyLowerChar c := by
  unfold pyLowerChar
  split
  · split <;> omega
  · rfl

theorem list_map_id_of_mem {α : Type} (f : α → α) :
    ∀ l : List α, (∀ x ∈ l, f x = x) → l.map f = l := by
  intro l h
  calc l.map f = l.map id := List.map_congr_left h
  _ = l := List.map_id l

theorem dropWhile_eq_self_of_head (p : Nat → Bool) (l : PyStr)
    (h : ∀ c, l.head? = some c → p c = false) : l.dropWhile p = l := by
  cases l with
  | nil => rfl
  | cons a t => rw [List.dropWhile_cons]; simp [h a rfl]

theorem pyStrip_eq_self (l : PyStr)
    (h1 : ∀ c, l.head? = some c → isPySpace c = false)
    (h2 : ∀ c, l.getLast? = some c → isPySpace c = false) : pyStrip l = l := by
  unfold pyStrip
  rw [dropWhile_eq_self_of_head _ _ h1]
  rw [dropWhile_eq_self_of_head _ _
    (fun c hc => h2 c (by rwa [List.head?_reverse] at hc))]
  exact List.reverse_reverse l

theorem pyStrip_head_not_space (l : PyStr) :
    ∀ c, (pyStrip l).head? = some c → isPySpace c = false := by
  intro c hc
  unfold pyStrip at hc
  rw [List.head?_reverse] at hc
  obtain ⟨t, ht⟩ :=
    List.dropWhile_suffix (l := (l.dropWhile isPySpace).reverse) isPySpace
  have hrev : ((l.dropWhile isPySpace).reverse).getLast? = some c := by
    rw [← ht, List.getLast?_append, hc]; rfl
  rw [List.getLast?_reverse] at hrev
  have h3 := List.head?_dropWhile_not isPySpace l
  rw [hrev] at h3
  simpa using h3

theorem pyStrip_getLast_not_space (l : PyStr) :
    ∀ c, (pyStrip l).getLast? = some c → isPySpace c = false := by
  intro c hc
  unfold pyStrip at hc
  rw [List.getLast?_reverse] at hc
  have h3 := List.head?_dropWhile_not isPySpace (l.dropWhile isPySpace).reverse
  rw [hc] at h3
  simpa using h3

theorem mem_pyStrip {a : Nat} {l : PyStr} (h : a ∈ pyStrip l) : a ∈ l := by
  unfold pyStrip at h
  rw [List.mem_reverse] at h
  have h2 :=
    (List.dropWhile_sublist (l := (l.dropWhile isPySpace).reverse) isPySpace).subset h
  rw [List.mem_reverse] at h2
  exact (List.dropWhile_sublist isPySpace).subset h2

theorem pyStrip_eq_nil_iff (l : PyStr) :
    pyStrip l = [] ↔ ∀ c ∈ l, isPySpace c = true := by
  constructor
  · intro h c hc
    by_contra hcs
    unfold pyStrip at h
    rw [List.reverse_eq_nil_iff, List.dropWhile_eq_nil_iff] at h
    have hd1 : ∀ x ∈ l.dropWhile isPySpace, isPySpace x = true := by
      intro x hx
      exact h x (by rwa [List.mem_reverse])
    have hnil : l.dropWhile isPySpace = [] := by
      cases hdw : l.dropWhile isPySpace with
      | nil => rfl
      | cons b t =>
          have hb := List.head?_dropWhile_not isPySpace l
          rw [hdw] at hb
          simp only [List.head?_cons] at hb
          have : isPySpace b = true := hd1 b (by rw [hdw]; exact List.mem_cons_self b t)
          rw [this] at hb
          cases hb
    rw [List.dropWhile_eq_nil_iff] at hnil
    exact hcs (hnil c hc)
  · intro h
    unfold pyStrip
    have h1 : l.dropWhile isPySpace = [] := (List.dropWhile_eq_nil_iff).mpr h
    rw [h1]
    rfl

theorem pyLowerChar_eq_self_of_not_upper {c : Nat} (h : ¬(65 ≤ c ∧ c ≤ 90)) :
    pyLowerChar c = c := by
  unfold pyLowerChar
  exact if_neg h

theorem underscoreChar_lowered_of_lowered {c : Nat} (h : pyLowerChar c = c) :
    pyLowerChar (underscoreChar c) = underscoreChar c := by
  unfold underscoreChar
  by_cases h32 : c = 32
  · rw [if_pos h32]; decide
  · rw [if_neg h32]; exact h

theorem underscoreChar_ne_32 (c : Nat) : underscoreChar c ≠ 32 := by
  unfold underscoreChar
  split <;> omega

theorem underscoreChar_not_space {c : Nat} (h : isPySpace c = false) :
    isPySpace (underscoreChar c) = false := by
  unfold underscoreChar
  split
  · decide
  · exact h

theorem pyLowerChar_not_space {c : Nat} (h : isPySpace c = false) :
    isPySpace (pyLowerChar c) = false := by
  unfold pyLowerChar
  split
  · simp only [isPySpace, decide_eq_false_iff_not] at *
    omega
  · exact h

theorem underscore_low_not_punct {d : Nat} (hd : d ∉ punctCodes) :
    underscoreChar (pyLowerChar d) ∉ punctCodes := by
  unfold pyLowerChar underscoreChar
  simp only [punctCodes, List.mem_cons, List.not_mem_nil, or_false] at *
  split
  · split <;> omega
  · split <;> omega

theorem mkCategory_some_facts {nm : PyStr} {conf : ℚ} {c : Category}
    (h : mkCategory nm conf = some c) :
    c.name = (pyStrip nm).map (fun d => underscoreChar (pyLowerChar d)) ∧
    c.confidence = conf ∧ 0 ≤ conf ∧ conf ≤ 1 ∧ pyStrip nm ≠ [] := by
  unfold mkCategory at h
  by_cases h1 : pyStrip nm = []
  · rw [if_pos h1] at h; cases h
  · rw [if_neg h1] at h
    by_cases h2 : conf < 0 ∨ 1 < conf
    · rw [if_pos h2] at h; cases h
    · rw [if_neg h2] at h
      push_neg at h2
      injection h with h3
      subst h3
      refine ⟨?_, rfl, h2.1, h2.2, h1⟩
      simp [underscoreSpaces, pyLower, List.map_map, Function.comp]

theorem mkCategory_name_props {nm : PyStr} {conf : ℚ} {c : Category}
    (h : mkCategory nm conf = some c) :
    c.name ≠ [] ∧ (∀ x ∈ c.name, pyLowerChar x = x ∧ x ≠ 32) ∧
    (∀ x, c.name.head? = some x → isPySpace x = false) ∧
    (∀ x, c.name.getLast? = some x → isPySpace x = false) := by
  obtain ⟨hname, -, -, -, hne⟩ := mkCategory_some_facts h
  refine ⟨?_, ?_, ?_, ?_⟩
  · rw [hname]; simpa using hne
  · intro x hx
    rw [hname] at hx
    obtain ⟨d, hd, rfl⟩ := List.mem_map.mp hx
    exact ⟨underscoreChar_lowered_of_lowered (pyLowerChar_idem d), underscoreChar_ne_32 _⟩
  · intro x hx
    rw [hname, List.head?_map] at hx
    cases hh : (pyStrip nm).head? with
    | none => rw [hh] at hx; cases hx
    | some d =>
        rw [hh] at hx
        simp only [Option.map_some'] at hx
        have hd := pyStrip_head_not_space nm d hh
        obtain rfl : underscoreChar (pyLowerChar d) = x := by injection hx
        exact underscoreChar_not_space (pyLowerChar_not_space hd)
  · intro x hx
    rw [hname, List.getLast?_map] at hx
    cases hh : (pyStrip nm).getLast? with
    | none => rw [hh] at hx; cases hx
    | some d =>
        rw [hh] at hx
        simp only [Option.map_some'] at hx
        have hd := pyStrip_getLast_not_space nm d hh
        obtain rfl : underscoreChar (pyLowerChar d) = x := by injection hx
        exact underscoreChar_not_space (pyLowerChar_not_space hd)

theorem pyStrip_ne_nil_of_head {l : PyStr} {x : Nat} (hx : l.head? = some x)
    (hs : isPySpace x = false) : pyStrip l ≠ [] := by
  intro hnil
  have hall := (pyStrip_eq_nil_iff l).mp hnil
  cases l with
  | nil => cases hx
  | cons a t =>
      simp only [List.head?_cons, Option.some.injEq] at hx
      subst hx
      have := hall a (List.mem_cons_self a t)
      rw [this] at hs
      cases hs

theorem fromAiResponse_name_not_punct {t : PyStr} {conf : ℚ} {c : Category}
    (h : fromAiResponse t conf = some c) : ∀ x ∈ c.name, x ∉ punctCodes := by
  unfold fromAiResponse at h
  obtain ⟨hname, -, -, -, -⟩ := mkCategory_some_facts h
  intro x hx
  rw [hname] at hx
  obtain ⟨d, hd, rfl⟩ := List.mem_map.mp hx
  have hdc : d ∈ stripPunct (pyLower (pyStrip t)) := mem_pyStrip hd
  unfold stripPunct at hdc
  have hdp : d ∉ punctCodes := by simpa using (List.mem_filter.mp hdc).2
  exact underscore_low_not_punct hdp

/-- C9: Category normalization is idempotent: whenever
`Category.from_ai_response` succeeds on a raw text and produces the
identifier `c.name`, running it again on that identifier succeeds and
returns the very same category (trim, lowercase, punctuation-strip and
space-to-underscore leave an already-normalized identifier unchanged). -/
theorem c9_normalization_idempotent (t : PyStr) (conf : ℚ) (c : Category)
    (h : fromAiResponse t conf = some c) : fromAiResponse c.name conf = some c := by
  have hpunct := fromAiResponse_name_not_punct h
  have hfacts := mkCategory_some_facts
    (show mkCategory (stripPunct (pyLower (pyStrip t))) conf = some c from h)
  obtain ⟨hname, hconf, h0, h1, hne⟩ := hfacts
  have hprops := mkCategory_name_props
    (show mkCategory (stripPunct (pyLower (pyStrip t))) conf = some c from h)
  obtain ⟨hnn, hmem, hhead, hlast⟩ := hprops
  have hstrip : pyStrip c.name = c.name := pyStrip_eq_self _ hhead hlast
  have hlow : pyLower c.name = c.name :=
    list_map_id_of_mem _ _ (fun x hx => (hmem x hx).1)
  have hpunct' : stripPunct c.name = c.name := by
    unfold stripPunct
    rw [List.filter_eq_self]
    intro a ha
    simpa using hpunct a ha
  have hund : underscoreSpaces c.name = c.name :=
    list_map_id_of_mem _ _
      (fun x hx => by unfold underscoreChar; rw [if_neg (hmem x hx).2])
  unfold fromAiResponse mkCategory
  rw [hstrip, hlow, hpunct', hstrip]
  rw [if_neg hnn]
  rw [if_neg (show ¬(conf < 0 ∨ 1 < conf) by push_neg; exact ⟨h0, h1⟩)]
  rw [hlow, hund, ← hconf]

/-- Witness for C9 at the concrete raw text "Teddy Bear!". -/
theorem c9_witness :
    fromAiResponse [116, 101, 100, 100, 121, 95, 98, 101, 97, 114] 1 =
      some ⟨[116, 101, 100, 100, 121, 95, 98, 101, 97, 114], 1⟩ :=
  c9_normalization_idempotent [84, 101, 100, 100, 121, 32, 66, 101, 97, 114, 33] 1
    ⟨[116, 101, 100, 100, 121, 95, 98, 101, 97, 114], 1⟩ (by decide)

/-- C10: every successfully constructed `Category` has a non-empty,
all-lowercase name with no space characters and a confidence in [0, 1];
construction from a whitespace-only (or empty) name, or with an
out-of-range confidence, fails; and `is_valid` holds for every `Category`
that exists. -/
theorem c10_category_invariant (nm : PyStr) (conf : ℚ) :
    (∀ c : Category, mkCategory nm conf = some c →
      c.name ≠ [] ∧ (∀ x ∈ c.name, pyLowerChar x = x) ∧ 32 ∉ c.name ∧
      0 ≤ c.confidence ∧ c.confidence ≤ 1 ∧ c.isValid = true) ∧
    ((∀ ch ∈ nm, isPySpace ch = true) → mkCategory nm conf = none) ∧
    ((conf < 0 ∨ 1 < conf) → mkCategory nm conf = none) := by
  refine ⟨?_, ?_, ?_⟩
  · intro c h
    obtain ⟨hname, hconf, h0, h1, hne⟩ := mkCategory_some_facts h
    obtain ⟨hnn, hmem, hhead, hlast⟩ := mkCategory_name_props h
    refine ⟨hnn, fun x hx => (hmem x hx).1, ?_, ?_, ?_, ?_⟩
    · intro h32; exact (hmem 32 h32).2 rfl
    · rw [hconf]; exact h0
    · rw [hconf]; exact h1
    · have hh : ∃ x, c.name.head? = some x := by
        cases hcn : c.name with
        | nil => exact absurd hcn hnn
        | cons a t => exact ⟨a, rfl⟩
      obtain ⟨x, hx⟩ := hh
      have hsne := pyStrip_ne_nil_of_head hx (hhead x hx)
      unfold Category.isValid
      simp [List.isEmpty_iff, hnn, hsne]
  · intro hall
    unfold mkCategory
    rw [if_pos ((pyStrip_eq_nil_iff nm).mpr hall)]
  · intro hbad
    unfold mkCategory
    by_cases h1 : pyStrip nm = []
    · rw [if_pos h1]
    · rw [if_neg h1, if_pos hbad]

/-- Witness for C10 at the concrete name "other" with confidence 1. -/
theorem c10_witness :
    otherCategory.name ≠ [] ∧ (∀ x ∈ otherCategory.name, pyLowerChar x = x) ∧
    32 ∉ otherCategory.name ∧ 0 ≤ otherCategory.confidence ∧
    otherCategory.confidence ≤ 1 ∧ otherCategory.isValid = true :=
  (c10_category_invariant otherName 1).1 otherCategory (by decide)

theorem foldl_min_le_init (l : List Int) (a : Int) : l.foldl min a ≤ a := by
  induction l generalizing a with
  | nil => exact le_refl a
  | cons b t ih =>
      simp only [List.foldl_cons]
      exact le_trans (ih (min a b)) (min_le_left a b)

theorem foldl_min_le_mem {l : List Int} {x : Int} (a : Int) (hx : x ∈ l) :
    l.foldl min a ≤ x := by
  induction l generalizing a with
  | nil => cases hx
  | cons b t ih =>
      simp only [List.foldl_cons]
      rcases List.mem_cons.mp hx with rfl | hx2
      · exact le_trans (foldl_min_le_init t (min a x)) (min_le_right a x)
      · exact ih (min a b) hx2

theorem le_foldl_max_init (l : List Int) (a : Int) : a ≤ l.foldl max a := by
  induction l generalizing a with
  | nil => exact le_refl a
  | cons b t ih =>
      simp only [List.foldl_cons]
      exact le_trans (le_max_left a b) (ih (max a b))

theorem le_foldl_max_mem {l : List Int} {x : Int} (a : Int) (hx : x ∈ l) :
    x ≤ l.foldl max a := by
  induction l generalizing a with
  | nil => cases hx
  | cons b t ih =>
      simp only [List.foldl_cons]
      rcases List.mem_cons.mp hx with rfl | hx2
      · exact le_trans (le_max_right a x) (le_foldl_max_init t (max a x))
      · exact ih (max a b) hx2

theorem pyInt_of_nonneg {q : ℚ} (h : 0 ≤ q) : pyInt q = ⌊q⌋ := by
  unfold pyInt
  exact if_neg (not_lt.mpr h)

theorem pyInt_nonneg {q : ℚ} (h : 0 ≤ q) : 0 ≤ pyInt q := by
  rw [pyInt_of_nonneg h]
  exact Int.floor_nonneg.mpr h

theorem pyInt_mono_of_nonneg {a b : ℚ} (ha : 0 ≤ a) (hab : a ≤ b) :
    pyInt a ≤ pyInt b := by
  rw [pyInt_of_nonneg ha, pyInt_of_nonneg (le_trans ha hab)]
  exact Int.floor_le_floor hab

theorem patternScale_nonneg (cfg : CanvasConfig) (pw ph : Int)
    (hW : 100 ≤ cfg.width) (hH : 100 ≤ cfg.height) : 0 ≤ patternScale cfg pw ph := by
  unfold patternScale
  split
  · rename_i hpos
    have hw1 : (0 : ℚ) ≤ ((cfg.width : ℚ) - 2 * canvasPadding) := by
      have : (100 : ℚ) ≤ (cfg.width : ℚ) := by exact_mod_cast hW
      unfold canvasPadding
      push_cast
      linarith
    have hh1 : (0 : ℚ) ≤ ((cfg.height : ℚ) - 2 * canvasPadding) := by
      have : (100 : ℚ) ≤ (cfg.height : ℚ) := by exact_mod_cast hH
      unfold canvasPadding
      push_cast
      linarith
    have hpw : (0 : ℚ) < (pw : ℚ) := by exact_mod_cast hpos.1
    have hph : (0 : ℚ) < (ph : ℚ) := by exact_mod_cast hpos.2
    refine le_min (le_min ?_ ?_) (by norm_num)
    · exact div_nonneg hw1 (le_of_lt hpw)
    · exact div_nonneg hh1 (le_of_lt hph)
  · norm_num

theorem patternScale_le_one (cfg : CanvasConfig) (pw ph : Int) :
    patternScale cfg pw ph ≤ 1 := by
  unfold patternScale
  split
  · exact min_le_right _ _
  · exact le_refl 1

/-- C7: for a non-empty stitch sequence the scale factor equals
min(available-width / pattern-width, available-height / pattern-height, 1.0)
with available = configured size minus twice the padding, defaults to 1.0
when the pattern width or height is zero, never exceeds 1.0, the canvas is
the truncated scaled pattern size plus twice the padding per axis, and every
transformed stitch point lies strictly inside the canvas bounds (assuming
the configured size leaves room for the padding, as the default 800x600
does). -/
theorem c7_scale_and_canvas (cfg : CanvasConfig) (s0 : StitchEntry)
    (rest : List StitchEntry) (hW : 100 ≤ cfg.width) (hH : 100 ≤ cfg.height) :
    ∃ r, convertPesToJpg cfg (s0 :: rest) = some r ∧
      r.scale =
        (if 0 < patternMaxX s0 rest - patternMinX s0 rest ∧
            0 < patternMaxY s0 rest - patternMinY s0 rest then
          min (min (((cfg.width : ℚ) - 100) / ((patternMaxX s0 rest - patternMinX s0 rest : Int) : ℚ))
                   (((cfg.height : ℚ) - 100) / ((patternMaxY s0 rest - patternMinY s0 rest : Int) : ℚ))) 1
        else 1) ∧
      r.scale ≤ 1 ∧
      ((patternMaxX s0 rest - patternMinX s0 rest = 0 ∨
        patternMaxY s0 rest - patternMinY s0 rest = 0) → r.scale = 1) ∧
      r.imgWidth =
        pyInt ((patternMaxX s0 rest - patternMinX s0 rest : Int) * r.scale) + 2 * canvasPadding ∧
      r.imgHeight =
        pyInt ((patternMaxY s0 rest - patternMinY s0 rest : Int) * r.scale) + 2 * canvasPadding ∧
      ∀ s ∈ s0 :: rest,
        0 ≤ (stitchTransform (patternMinX s0 rest) (patternMinY s0 rest) r.scale s.x s.y).x ∧
        (stitchTransform (patternMinX s0 rest) (patternMinY s0 rest) r.scale s.x s.y).x < r.imgWidth ∧
        0 ≤ (stitchTransform (patternMinX s0 rest) (patternMinY s0 rest) r.scale s.x s.y).y ∧
        (stitchTransform (patternMinX s0 rest) (patternMinY s0 rest) r.scale s.x s.y).y < r.imgHeight := by
  refine ⟨_, rfl, ?_, ?_, ?_, rfl, rfl, ?_⟩
  · unfold patternScale canvasPadding
    push_cast
    norm_num
  · exact patternScale_le_one cfg _ _
  · intro h
    unfold patternScale
    rw [if_neg (by rcases h with h | h <;> omega)]
  · intro s hs
    have hpad : (canvasPadding : Int) = 50 := rfl
    have hscale0 : 0 ≤ patternScale cfg
        (patternMaxX s0 rest - patternMinX s0 rest)
        (patternMaxY s0 rest - patternMinY s0 rest) := patternScale_nonneg cfg _ _ hW hH
    have hminx : patternMinX s0 rest ≤ s.x := by
      rcases List.mem_cons.mp hs with rfl | hs2
      · exact foldl_min_le_init _ _
      · exact foldl_min_le_mem _ (List.mem_map_of_mem StitchEntry.x hs2)
    have hmaxx : s.x ≤ patternMaxX s0 rest := by
      rcases List.mem_cons.mp hs with rfl | hs2
      · exact le_foldl_max_init _ _
      · exact le_foldl_max_mem _ (List.mem_map_of_mem StitchEntry.x hs2)
    have hminy : patternMinY s0 rest ≤ s.y := by
      rcases List.mem_cons.mp hs with rfl | hs2
      · exact foldl_min_le_init _ _
      · exact foldl_min_le_mem _ (List.mem_map_of_mem StitchEntry.y hs2)
    have hmaxy : s.y ≤ patternMaxY s0 rest := by
      rcases List.mem_cons.mp hs with rfl | hs2
      · exact le_foldl_max_init _ _
      · exact le_foldl_max_mem _ (List.mem_map_of_mem StitchEntry.y hs2)
    set sc := patternScale cfg (patternMaxX s0 rest - patternMinX s0 rest)
      (patternMaxY s0 rest - patternMinY s0 rest) with hsc
    have hargx : (0 : ℚ) ≤ ((s.x - patternMinX s0 rest : Int) : ℚ) * sc := by
      apply mul_nonneg _ hscale0
      have : (0 : Int) ≤ s.x - patternMinX s0 rest := by omega
      exact_mod_cast this
    have hargy : (0 : ℚ) ≤ ((s.y - patternMinY s0 rest : Int) : ℚ) * sc := by
      apply mul_nonneg _ hscale0
      have : (0 : Int) ≤ s.y - patternMinY s0 rest := by omega
      exact_mod_cast this
    have hux : ((s.x - patternMinX s0 rest : Int) : ℚ) * sc ≤
        ((patternMaxX s0 rest - patternMinX s0 rest : Int) : ℚ) * sc := by
      apply mul_le_mul_of_nonneg_right _ hscale0
      have : (s.x - patternMinX s0 rest : Int) ≤
          patternMaxX s0 rest - patternMinX s0 rest := by omega
      exact_mod_cast this
    have huy : ((s.y - patternMinY s0 rest : Int) : ℚ) * sc ≤
        ((patternMaxY s0 rest - patternMinY s0 rest : Int) : ℚ) * sc := by
      apply mul_le_mul_of_nonneg_right _ hscale0
      have : (s.y - patternMinY s0 rest : Int) ≤
          patternMaxY s0 rest - patternMinY s0 rest := by omega
      exact_mod_cast this
    have hlx := pyInt_nonneg hargx
    have hly := pyInt_nonneg hargy
    have hmx := pyInt_mono_of_nonneg hargx hux
    have hmy := pyInt_mono_of_nonneg hargy huy
    unfold stitchTransform
    dsimp only
    simp only [hpad]
    refine ⟨by omega, by omega, by omega, by omega⟩

/-- Witness for C7 on a concrete two-stitch pattern on the default canvas. -/
theorem c7_witness :
    ∃ r, convertPesToJpg ⟨800, 600⟩ [⟨0, 0, .stitchOp⟩, ⟨10, 20, .stitchOp⟩] = some r ∧
      r.scale =
        (if 0 < patternMaxX ⟨0, 0, .stitchOp⟩ [⟨10, 20, .stitchOp⟩] -
              patternMinX ⟨0, 0, .stitchOp⟩ [⟨10, 20, .stitchOp⟩] ∧
            0 < patternMaxY ⟨0, 0, .stitchOp⟩ [⟨10, 20, .stitchOp⟩] -
              patternMinY ⟨0, 0, .stitchOp⟩ [⟨10, 20, .stitchOp⟩] then
          min (min ((((800 : Nat) : ℚ) - 100) /
                ((patternMaxX ⟨0, 0, .stitchOp⟩ [⟨10, 20, .stitchOp⟩] -
                  patternMinX ⟨0, 0, .stitchOp⟩ [⟨10, 20, .stitchOp⟩] : Int) : ℚ))
               ((((600 : Nat) : ℚ) - 100) /
                ((patternMaxY ⟨0, 0, .stitchOp⟩ [⟨10, 20, .stitchOp⟩] -
                  patternMinY ⟨0, 0, .stitchOp⟩ [⟨10, 20, .stitchOp⟩] : Int) : ℚ))) 1
        else 1) ∧
      r.scale ≤ 1 ∧
      ((patternMaxX ⟨0, 0, .stitchOp⟩ [⟨10, 20, .stitchOp⟩] -
          patternMinX ⟨0, 0, .stitchOp⟩ [⟨10, 20, .stitchOp⟩] = 0 ∨
        patternMaxY ⟨0, 0, .stitchOp⟩ [⟨10, 20, .stitchOp⟩] -
          patternMinY ⟨0, 0, .stitchOp⟩ [⟨10, 20, .stitchOp⟩] = 0) → r.scale = 1) ∧
      r.imgWidth =
        pyInt ((patternMaxX ⟨0, 0, .stitchOp⟩ [⟨10, 20, .stitchOp⟩] -
          patternMinX ⟨0, 0, .stitchOp⟩ [⟨10, 20, .stitchOp⟩] : Int) * r.scale) +
          2 * canvasPadding ∧
      r.imgHeight =
        pyInt ((patternMaxY ⟨0, 0, .stitchOp⟩ [⟨10, 20, .stitchOp⟩] -
          patternMinY ⟨0, 0, .stitchOp⟩ [⟨10, 20, .stitchOp⟩] : Int) * r.scale) +
          2 * canvasPadding ∧
      ∀ s ∈ [(⟨0, 0, .stitchOp⟩ : StitchEntry), ⟨10, 20, .stitchOp⟩],
        0 ≤ (stitchTransform (patternMinX ⟨0, 0, .stitchOp⟩ [⟨10, 20, .stitchOp⟩])
              (patternMinY ⟨0, 0, .stitchOp⟩ [⟨10, 20, .stitchOp⟩]) r.scale s.x s.y).x ∧
        (stitchTransform (patternMinX ⟨0, 0, .stitchOp⟩ [⟨10, 20, .stitchOp⟩])
              (patternMinY ⟨0, 0, .stitchOp⟩ [⟨10, 20, .stitchOp⟩]) r.scale s.x s.y).x < r.imgWidth ∧
        0 ≤ (stitchTransform (patternMinX ⟨0, 0, .stitchOp⟩ [⟨10, 20, .stitchOp⟩])
              (patternMinY ⟨0, 0, .stitchOp⟩ [⟨10, 20, .stitchOp⟩]) r.scale s.x s.y).y ∧
        (stitchTransform (patternMinX ⟨0, 0, .stitchOp⟩ [⟨10, 20, .stitchOp⟩])
              (patternMinY ⟨0, 0, .stitchOp⟩ [⟨10, 20, .stitchOp⟩]) r.scale s.x s.y).y < r.imgHeight :=
  c7_scale_and_canvas ⟨800, 600⟩ ⟨0, 0, .stitchOp⟩ [⟨10, 20, .stitchOp⟩]
    (by norm_num) (by norm_num)

theorem renderLoop_append (tf : Int → Int → Pt) (a b : List StitchEntry) :
    ∀ (i : Nat) (st : RenderState),
      renderLoop tf i st (a ++ b) = renderLoop tf (i + a.length) (renderLoop tf i st a) b := by
  induction a with
  | nil => intro i st; rfl
  | cons s t ih =>
      intro i st
      show renderLoop tf (i + 1) (renderStep tf i st s) (t ++ b) =
        renderLoop tf (i + (t.length + 1))
          (renderLoop tf (i + 1) (renderStep tf i st s) t) b
      rw [ih (i + 1) (renderStep tf i st s)]
      have hidx : (i + 1) + t.length = i + (t.length + 1) := by omega
      rw [hidx]

/-- Provenance of drawn segments: starting from a state whose anchor (if
any) satisfies `A`, every segment drawn while processing `l` has a source
point satisfying `A` or arising from `l`, and a destination point arising
from `l`. -/
theorem renderLoop_segments_prov (tf : Int → Int → Pt) :
    ∀ (l : List StitchEntry) (i : Nat) (st : RenderState) (A : Pt → Prop),
      (∀ p, st.prevPoint = some p → A p) →
      ∃ tail, (renderLoop tf i st l).segments = st.segments ++ tail ∧
        ∀ sg ∈ tail, (A sg.src ∨ sg.src ∈ tfPoints tf l) ∧ sg.dst ∈ tfPoints tf l := by
  intro l
  induction l with
  | nil =>
      intro i st A hprev
      exact ⟨[], by simp [renderLoop], by simp⟩
  | cons s rest ih =>
      intro i st A hprev
      have hmem0 : tf s.x s.y ∈ tfPoints tf (s :: rest) := by
        simp [tfPoints]
      have hsub : ∀ q : Pt, q ∈ tfPoints tf rest → q ∈ tfPoints tf (s :: rest) := by
        intro q hq
        simp only [tfPoints, List.map_cons, List.mem_cons]
        right
        simpa [tfPoints] using hq
      set A' : Pt → Prop := fun q => A q ∨ q ∈ tfPoints tf (s :: rest) with hA'
      have step : renderLoop tf i st (s :: rest) =
          renderLoop tf (i + 1) (renderStep tf i st s) rest := rfl
      have hcases :
          ((renderStep tf i st s).segments = st.segments ∨
            (∃ p, st.prevPoint = some p ∧
              (renderStep tf i st s).segments =
                st.segments ++ [⟨p, tf s.x s.y, st.color⟩])) ∧
          ((renderStep tf i st s).prevPoint = none ∨
            (renderStep tf i st s).prevPoint = some (tf s.x s.y)) := by
        unfold renderStep
        cases hc : s.cmd <;> simp
        cases hp : st.prevPoint <;> simp
      have hprev' : ∀ p, (renderStep tf i st s).prevPoint = some p → A' p := by
        intro p hp
        rcases hcases.2 with h2 | h2
        · rw [h2] at hp; cases hp
        · rw [h2] at hp
          injection hp with hp2
          rw [← hp2]
          exact Or.inr hmem0
      obtain ⟨tail', hseg', hmem'⟩ := ih (i + 1) (renderStep tf i st s) A' hprev'
      rcases hcases.1 with h1 | ⟨p, hp, h1⟩
      · refine ⟨tail', ?_, ?_⟩
        · rw [step, hseg', h1]
        · intro sg hsg
          obtain ⟨hsrc, hdst⟩ := hmem' sg hsg
          refine ⟨?_, hsub _ hdst⟩
          rcases hsrc with hs1 | hs1
          · rcases hs1 with hs2 | hs2
            · exact Or.inl hs2
            · exact Or.inr hs2
          · exact Or.inr (hsub _ hs1)
      · refine ⟨⟨p, tf s.x s.y, st.color⟩ :: tail', ?_, ?_⟩
        · rw [step, hseg', h1, List.append_assoc]
          rfl
        · intro sg hsg
          rcases List.mem_cons.mp hsg with rfl | hsg2
          · exact ⟨Or.inl (hprev p hp), hmem0⟩
          · obtain ⟨hsrc, hdst⟩ := hmem' sg hsg2
            refine ⟨?_, hsub _ hdst⟩
            rcases hsrc with hs1 | hs1
            · rcases hs1 with hs2 | hs2
              · exact Or.inl hs2
              · exact Or.inr hs2
            · exact Or.inr (hsub _ hs1)

/-- C8: a trim/stop command always breaks line continuity: every segment
drawn while processing the commands after a trim/stop has both endpoints
arising from commands after the trim, so rendering never connects a point
from before the trim/stop to the first (or any) draw-segment point after
it; in particular a draw-segment immediately after the trim only
re-establishes an anchor. -/
theorem c8_trim_breaks_continuity (tf : Int → Int → Pt) (pre post : List StitchEntry)
    (t : StitchEntry) (ht : t.cmd = .trimOp ∨ t.cmd = .stopOp) :
    ∃ tail,
      (renderLoop tf 0 initialRenderState (pre ++ t :: post)).segments =
        (renderLoop tf 0 initialRenderState (pre ++ [t])).segments ++ tail ∧
      ∀ sg ∈ tail, sg.src ∈ tfPoints tf post ∧ sg.dst ∈ tfPoints tf post := by
  have hsplit : pre ++ t :: post = (pre ++ [t]) ++ post := by simp
  rw [hsplit, renderLoop_append]
  have hprev : (renderLoop tf 0 initialRenderState (pre ++ [t])).prevPoint = none := by
    rw [renderLoop_append]
    show (renderStep tf (0 + pre.length)
      (renderLoop tf 0 initialRenderState pre) t).prevPoint = none
    rcases ht with h | h <;> simp [renderStep, h]
  obtain ⟨tail, hseg, hmem⟩ :=
    renderLoop_segments_prov tf post (0 + (pre ++ [t]).length)
      (renderLoop tf 0 initialRenderState (pre ++ [t])) (fun _ => False)
      (by intro p hp; rw [hprev] at hp; cases hp)
  refine ⟨tail, hseg, ?_⟩
  intro sg hsg
  obtain ⟨hsrc, hdst⟩ := hmem sg hsg
  rcases hsrc with hF | hs
  · cases hF
  · exact ⟨hs, hdst⟩

/-- Witness for C8 with a trim followed by a jump and a stitch: the one
segment drawn after the trim has both endpoints from post-trim commands. -/
theorem c8_witness :
    ∃ tail,
      (renderLoop (fun x y => ⟨x, y⟩) 0 initialRenderState
          ([⟨0, 0, .stitchOp⟩] ++ ⟨0, 0, .trimOp⟩ :: [⟨3, 4, .jumpOp⟩, ⟨5, 6, .stitchOp⟩])).segments =
        (renderLoop (fun x y => ⟨x, y⟩) 0 initialRenderState
          ([⟨0, 0, .stitchOp⟩] ++ [⟨0, 0, .trimOp⟩])).segments ++ tail ∧
      ∀ sg ∈ tail,
        sg.src ∈ tfPoints (fun x y => ⟨x, y⟩) [⟨3, 4, .jumpOp⟩, ⟨5, 6, .stitchOp⟩] ∧
        sg.dst ∈ tfPoints (fun x y => ⟨x, y⟩) [⟨3, 4, .jumpOp⟩, ⟨5, 6, .stitchOp⟩] :=
  c8_trim_breaks_continuity (fun x y => ⟨x, y⟩) [⟨0, 0, .stitchOp⟩]
    [⟨3, 4, .jumpOp⟩, ⟨5, 6, .stitchOp⟩] ⟨0, 0, .trimOp⟩ (Or.inl rfl)

/-- C5 counterexample: the code derives the palette index from the stitch's
position in the whole list divided by 100, not from a color-change event
counter: a first color-change at position 0 yields palette entry 0
("black"), but a first color-change at position 100 (after 100 jumps, still
zero prior color-change events) yields palette entry 1 ("red"). -/
theorem c5_counterexample : ¬ ccCounterClaim := by
  intro h
  have hb := h (fun x y => ⟨x, y⟩) (List.replicate 100 ⟨0, 0, .jumpOp⟩)
    ⟨0, 0, .colorChangeOp⟩ rfl
  revert hb
  decide

/-- C5 amended: on a color-change at (0-based) position i of the stitch
list, the stroke color becomes palette entry (i / 100) mod palette-size —
the index is derived from the stitch position, not from a color-change
counter — the anchor is set to the current transformed point (not cleared),
and no segment is drawn. -/
theorem c5_color_from_position (tf : Int → Int → Pt) (pre : List StitchEntry)
    (s : StitchEntry) (h : s.cmd = .colorChangeOp) :
    renderLoop tf 0 initialRenderState (pre ++ [s]) =
      { prevPoint := some (tf s.x s.y)
        color := strokePalette.getD ((pre.length / 100) % strokePalette.length)
          (renderLoop tf 0 initialRenderState pre).color
        segments := (renderLoop tf 0 initialRenderState pre).segments } := by
  rw [renderLoop_append]
  show renderStep tf (0 + pre.length) (renderLoop tf 0 initialRenderState pre) s = _
  simp [renderStep, h]

/-- Witness for C5 (amended) with a single color-change at position 0. -/
theorem c5_witness :
    renderLoop (fun x y => ⟨x, y⟩) 0 initialRenderState [⟨1, 2, .colorChangeOp⟩] =
      { prevPoint := some ⟨1, 2⟩, color := "black", segments := [] } :=
  c5_color_from_position (fun x y => ⟨x, y⟩) [] ⟨1, 2, .colorChangeOp⟩ rfl

theorem processAll_spec (available : Bool) :
    ∀ (files : List FileSpec) (st : BatchState),
      (processAll available files st).results.totalFiles = st.results.totalFiles ∧
      (processAll available files st).results.skippedFiles = st.results.skippedFiles ∧
      (processAll available files st).results.errors = st.results.errors ∧
      (processAll available files st).results.processedFiles =
        st.results.processedFiles +
          files.countP (fun f => (processSingleFile available f).1) ∧
      (processAll available files st).results.failedFiles =
        st.results.failedFiles +
          files.countP (fun f => !(processSingleFile available f).1) ∧
      (processAll available files st).tempImages =
        st.tempImages ++ files.map (fun f => tempJpgPath f.name) ∧
      (processAll available files st).trace =
        st.trace ++ files.map (fun f => BatchEvent.beginFile f.name) := by
  intro files
  induction files with
  | nil => intro st; simp [processAll]
  | cons f rest ih =>
      intro st
      obtain ⟨h1, h2, h3, h4, h5, h6, h7⟩ := ih (applyFile available st f)
      have hstep : processAll available (f :: rest) st =
          processAll available rest (applyFile available st f) := rfl
      rw [hstep]
      refine ⟨?_, ?_, ?_, ?_, ?_, ?_, ?_⟩
      · rw [h1]; rfl
      · rw [h2]; rfl
      · rw [h3]; rfl
      · rw [h4, List.countP_cons]
        cases hr : (processSingleFile available f).1 <;>
          · simp [applyFile, hr]
            try omega
      · rw [h5, List.countP_cons]
        cases hr : (processSingleFile available f).1 <;>
          · simp [applyFile, hr]
            try omega
      · rw [h6]
        simp [applyFile]
      · rw [h7]
        simp [applyFile]

theorem batchLoop_none (available : Bool) :
    ∀ (files : List FileSpec) (idx : Nat) (st : BatchState),
      batchLoop available none idx files st = processAll available files st := by
  intro files
  induction files with
  | nil => intro idx st; rfl
  | cons f rest ih =>
      intro idx st
      show batchLoop available none (idx + 1) rest (applyFile available st f) = _
      exact ih (idx + 1) (applyFile available st f)

theorem batchLoop_no_skip (available : Bool) (k : Nat) :
    ∀ (files : List FileSpec) (idx : Nat) (st : BatchState), k < idx →
      batchLoop available (some k) idx files st = processAll available files st := by
  intro files
  induction files with
  | nil => intro idx st _; rfl
  | cons f rest ih =>
      intro idx st hk
      show (if idx ≤ k then batchLoop available (some k) (idx + 1) rest st
        else batchLoop available (some k) (idx + 1) rest (applyFile available st f)) = _
      rw [if_neg (by omega)]
      exact ih (idx + 1) (applyFile available st f) (by omega)

theorem batchLoop_skip (available : Bool) (k : Nat) :
    ∀ (d : Nat) (files : List FileSpec) (idx : Nat) (st : BatchState),
      idx + d = k + 1 →
      batchLoop available (some k) idx files st =
        processAll available (files.drop d) st := by
  intro d
  induction d with
  | zero =>
      intro files idx st h
      rw [batchLoop_no_skip available k files idx st (by omega)]
      rfl
  | succ d ih =>
      intro files idx st h
      cases files with
      | nil => rfl
      | cons f rest =>
          show (if idx ≤ k then batchLoop available (some k) (idx + 1) rest st
            else batchLoop available (some k) (idx + 1) rest (applyFile available st f)) = _
          rw [if_pos (by omega)]
          exact ih rest (idx + 1) st (by omega)

theorem batchLoop_drop (available : Bool) (startAfter : Option Nat)
    (files : List FileSpec) (st : BatchState) :
    batchLoop available startAfter 1 files st =
      processAll available (files.drop (startAfter.getD 0)) st := by
  cases startAfter with
  | none => rw [batchLoop_none]; rfl
  | some k => exact batchLoop_skip available k k files 1 st (by omega)

theorem countP_add_countP_not {α : Type} (p : α → Bool) (l : List α) :
    l.countP p + l.countP (fun a => !p a) = l.length := by
  induction l with
  | nil => rfl
  | cons a t ih =>
      rw [List.countP_cons, List.countP_cons]
      cases h : p a <;> simp [h] <;> omega

/-- The results and trace of a batch over a non-empty directory with the
service available, expressed over the suffix of files that is actually
processed. -/
theorem categorize_components (files : List FileSpec) (startAfter : Option Nat)
    (hne : files ≠ []) :
    (categorizeFilesInDirectory true files startAfter).results.totalFiles = files.length ∧
    (categorizeFilesInDirectory true files startAfter).results.skippedFiles =
      some (startAfter.getD 0) ∧
    (categorizeFilesInDirectory true files startAfter).results.errors = [] ∧
    (categorizeFilesInDirectory true files startAfter).results.processedFiles =
      (files.drop (startAfter.getD 0)).countP (fun f => (processSingleFile true f).1) ∧
    (categorizeFilesInDirectory true files startAfter).results.failedFiles =
      (files.drop (startAfter.getD 0)).countP (fun f => !(processSingleFile true f).1) ∧
    (categorizeFilesInDirectory true files startAfter).trace =
      (files.drop (startAfter.getD 0)).map (fun f => BatchEvent.beginFile f.name) ++
        (if (files.drop (startAfter.getD 0)).isEmpty then []
         else [BatchEvent.cleanup
           ((files.drop (startAfter.getD 0)).map (fun f => tempJpgPath f.name))]) := by
  have hcat : categorizeFilesInDirectory true files startAfter =
      runCleanup (batchLoop true startAfter 1 files
        { results := ⟨files.length, 0, 0, ∅, [], some (startAfter.getD 0)⟩,
          tempImages := [], trace := [] }) := by
    unfold categorizeFilesInDirectory
    rw [if_pos rfl, if_neg (by simpa [List.isEmpty_iff] using hne)]
    rfl
  rw [hcat, batchLoop_drop]
  obtain ⟨h1, h2, h3, h4, h5, h6, h7⟩ :=
    processAll_spec true (files.drop (startAfter.getD 0))
      { results := ⟨files.length, 0, 0, ∅, [], some (startAfter.getD 0)⟩,
        tempImages := [], trace := [] }
  have h6' : (processAll true (files.drop (startAfter.getD 0))
      { results := ⟨files.length, 0, 0, ∅, [], some (startAfter.getD 0)⟩,
        tempImages := [], trace := [] }).tempImages =
      (files.drop (startAfter.getD 0)).map (fun f => tempJpgPath f.name) := by
    rw [h6]; simp
  have h7' : (processAll true (files.drop (startAfter.getD 0))
      { results := ⟨files.length, 0, 0, ∅, [], some (startAfter.getD 0)⟩,
        tempImages := [], trace := [] }).trace =
      (files.drop (startAfter.getD 0)).map (fun f => BatchEvent.beginFile f.name) := by
    rw [h7]; simp
  unfold runCleanup
  by_cases hbody : (files.drop (startAfter.getD 0)) = []
  · rw [if_pos (by rw [h6', hbody]; rfl)]
    refine ⟨h1, h2, h3, by simpa using h4, by simpa using h5, ?_⟩
    rw [h7', hbody]
    simp
  · have hmapne : (files.drop (startAfter.getD 0)).map (fun f => tempJpgPath f.name) ≠ [] := by
      intro hmap
      exact hbody (List.map_eq_nil_iff.mp hmap)
    rw [if_neg (by rw [h6']; simpa [List.isEmpty_iff] using hmapne)]
    dsimp only
    refine ⟨h1, h2, h3, by simpa using h4, by simpa using h5, ?_⟩
    rw [h7', h6']
    simp [List.isEmpty_iff, hbody]

/-- C1 counterexample: a batch over a directory with zero candidate files
has total = 0 and failed = 0, and since success is `failed < total` and
`0 < 0` is false, it reports success = false — not success as claimed. -/
theorem c1_counterexample :
    (executeCategorizeFiles true [] none).1.totalFiles = 0 ∧
    (executeCategorizeFiles true [] none).1.failedFiles = 0 ∧
    (executeCategorizeFiles true [] none).2 = false := by
  decide

/-- C1 amended: the success flag is true exactly when the failed-file count
is strictly less than the total-file count; consequently a batch over a
directory containing zero candidate files (total = 0, failed = 0) reports
success = false, because 0 < 0 fails. -/
theorem c1_success_iff (available : Bool) (files : List FileSpec)
    (startAfter : Option Nat) :
    ((executeCategorizeFiles available files startAfter).2 = true ↔
      (executeCategorizeFiles available files startAfter).1.failedFiles <
        (executeCategorizeFiles available files startAfter).1.totalFiles) ∧
    (files = [] → (executeCategorizeFiles available files startAfter).2 = false) := by
  constructor
  · simp [executeCategorizeFiles]
  · intro h
    subst h
    cases available <;>
      simp [executeCategorizeFiles, categorizeFilesInDirectory, runCleanup, initResults]

/-- Witness for C1 (amended) at the empty directory. -/
theorem c1_witness : (executeCategorizeFiles true [] none).2 = false :=
  (c1_success_iff true [] none).2 rfl

/-- C2 counterexample: a file whose render step fails increments the failed
counter but contributes no error entry at all — the error list stays empty,
not one message per failed item. -/
theorem c2_counterexample :
    (categorizeFilesInDirectory true [⟨"design1", .failure, none, .success⟩]
      none).results.failedFiles = 1 ∧
    (categorizeFilesInDirectory true [⟨"design1", .failure, none, .success⟩]
      none).results.errors = [] := by
  decide

/-- C2 amended: per-file processing catches all its exceptions and reports
failure by return value, so a failed item increments the failed counter but
never appends an error entry; the batch error list is empty whenever the
service is available, and contains exactly the single batch-level
unavailability message otherwise. -/
theorem c2_errors_spec (files : List FileSpec) (startAfter : Option Nat) :
    (categorizeFilesInDirectory true files startAfter).results.errors = [] ∧
    (categorizeFilesInDirectory false files startAfter).results.errors =
      ["Categorization service is not available"] ∧
    (files ≠ [] →
      (categorizeFilesInDirectory true files startAfter).results.failedFiles =
        (files.drop (startAfter.getD 0)).countP
          (fun f => !(processSingleFile true f).1)) := by
  refine ⟨?_, ?_, ?_⟩
  · by_cases hne : files = []
    · subst hne
      simp [categorizeFilesInDirectory, initResults]
    · exact (categorize_components files startAfter hne).2.2.1
  · simp [categorizeFilesInDirectory, runCleanup, initResults]
  · intro hne
    exact (categorize_components files startAfter hne).2.2.2.2.1

/-- Witness for C2 (amended) on a concrete one-file batch with a render
failure: failed = 1 while the error list is empty. -/
theorem c2_witness :
    (categorizeFilesInDirectory true [⟨"d2", .failure, none, .success⟩]
        none).results.failedFiles =
      ([(⟨"d2", .failure, none, .success⟩ : FileSpec)].drop ((none : Option Nat).getD 0)).countP
        (fun f => !(processSingleFile true f).1) :=
  (c2_errors_spec [⟨"d2", .failure, none, .success⟩] none).2.2 (by simp)

/-- C4 counterexample: in a two-file batch the trace is
[begin a, begin b, cleanup [a.jpg, b.jpg]] — there is no cleanup event
between the two files, so file a's preview is still on disk when file b
begins. -/
theorem c4_counterexample :
    ¬ perFileCleanupClaim (categorizeFilesInDirectory true
      [⟨"a", .success, none, .success⟩, ⟨"b", .success, none, .success⟩]
      none).trace := by
  intro h
  obtain ⟨m, ps, him, hmj, -, -⟩ := h 0 1 "a" "b" (by decide) (by decide) (by decide)
  omega

/-- C4 amended: the preview path is accumulated as soon as it is created
(one path per non-skipped file, in order), but deletion happens exactly
once, in a single cleanup event after the entire batch completes; completed
files' previews remain on disk mid-batch. -/
theorem c4_cleanup_once_at_end (files : List FileSpec) (startAfter : Option Nat)
    (hne : files ≠ []) :
    (categorizeFilesInDirectory true files startAfter).trace =
      (files.drop (startAfter.getD 0)).map (fun f => BatchEvent.beginFile f.name) ++
        (if (files.drop (startAfter.getD 0)).isEmpty then []
         else [BatchEvent.cleanup
           ((files.drop (startAfter.getD 0)).map (fun f => tempJpgPath f.name))]) :=
  (categorize_components files startAfter hne).2.2.2.2.2

/-- Witness for C4 (amended) on a concrete one-file batch. -/
theorem c4_witness :
    (categorizeFilesInDirectory true [⟨"a", .success, none, .success⟩] none).trace =
      ([(⟨"a", .success, none, .success⟩ : FileSpec)].drop ((none : Option Nat).getD 0)).map
          (fun f => BatchEvent.beginFile f.name) ++
        (if (([(⟨"a", .success, none, .success⟩ : FileSpec)].drop
            ((none : Option Nat).getD 0)).isEmpty) then []
         else [BatchEvent.cleanup
           (([(⟨"a", .success, none, .success⟩ : FileSpec)].drop
              ((none : Option Nat).getD 0)).map (fun f => tempJpgPath f.name))]) :=
  c4_cleanup_once_at_end [⟨"a", .success, none, .success⟩] none (by simp)

/-- C6: with a resume index 0 < k ≤ n over n discovered files, exactly the
first k files in scan order are skipped: the trace contains processing
events only for the files after the first k (so skipped files are never
rendered, classified or placed), the processed and failed counters count
only those remaining files (processed + failed = n - k), and the batch
records k as the skipped count. -/
theorem c6_resume_skips (files : List FileSpec) (k : Nat)
    (hk : 0 < k) (hlen : k ≤ files.length) :
    (categorizeFilesInDirectory true files (some k)).results.skippedFiles = some k ∧
    (categorizeFilesInDirectory true files (some k)).results.totalFiles = files.length ∧
    (categorizeFilesInDirectory true files (some k)).results.processedFiles =
      (files.drop k).countP (fun f => (processSingleFile true f).1) ∧
    (categorizeFilesInDirectory true files (some k)).results.failedFiles =
      (files.drop k).countP (fun f => !(processSingleFile true f).1) ∧
    (categorizeFilesInDirectory true files (some k)).results.processedFiles +
      (categorizeFilesInDirectory true files (some k)).results.failedFiles =
        files.length - k ∧
    (categorizeFilesInDirectory true files (some k)).trace =
      (files.drop k).map (fun f => BatchEvent.beginFile f.name) ++
        (if (files.drop k).isEmpty then []
         else [BatchEvent.cleanup ((files.drop k).map (fun f => tempJpgPath f.name))]) := by
  have hne : files ≠ [] := by
    intro h
    subst h
    simp at hlen
    omega
  obtain ⟨h1, h2, h3, h4, h5, h6⟩ := categorize_components files (some k) hne
  refine ⟨h2, h1, h4, h5, ?_, h6⟩
  rw [h4, h5, countP_add_countP_not, List.length_drop]
  rfl

/-- Witness for C6: resume index 1 over a two-file batch. -/
theorem c6_witness :
    (categorizeFilesInDirectory true
      [⟨"a", .success, none, .success⟩, ⟨"b", .failure, none, .success⟩]
      (some 1)).results.skippedFiles = some 1 ∧
    (categorizeFilesInDirectory true
      [⟨"a", .success, none, .success⟩, ⟨"b", .failure, none, .success⟩]
      (some 1)).results.totalFiles =
      [(⟨"a", .success, none, .success⟩ : FileSpec), ⟨"b", .failure, none, .success⟩].length ∧
    (categorizeFilesInDirectory true
      [⟨"a", .success, none, .success⟩, ⟨"b", .failure, none, .success⟩]
      (some 1)).results.processedFiles =
      ([(⟨"a", .success, none, .success⟩ : FileSpec), ⟨"b", .failure, none, .success⟩].drop 1).countP
        (fun f => (processSingleFile true f).1) ∧
    (categorizeFilesInDirectory true
      [⟨"a", .success, none, .success⟩, ⟨"b", .failure, none, .success⟩]
      (some 1)).results.failedFiles =
      ([(⟨"a", .success, none, .success⟩ : FileSpec), ⟨"b", .failure, none, .success⟩].drop 1).countP
        (fun f => !(processSingleFile true f).1) ∧
    (categorizeFilesInDirectory true
      [⟨"a", .success, none, .success⟩, ⟨"b", .failure, none, .success⟩]
      (some 1)).results.processedFiles +
      (categorizeFilesInDirectory true
        [⟨"a", .success, none, .success⟩, ⟨"b", .failure, none, .success⟩]
        (some 1)).results.failedFiles =
      [(⟨"a", .success, none, .success⟩ : FileSpec), ⟨"b", .failure, none, .success⟩].length - 1 ∧
    (categorizeFilesInDirectory true
      [⟨"a", .success, none, .success⟩, ⟨"b", .failure, none, .success⟩]
      (some 1)).trace =
      ([(⟨"a", .success, none, .success⟩ : FileSpec), ⟨"b", .failure, none, .success⟩].drop 1).map
          (fun f => BatchEvent.beginFile f.name) ++
        (if ([(⟨"a", .success, none, .success⟩ : FileSpec), ⟨"b", .failure, none, .success⟩].drop 1).isEmpty
         then []
         else [BatchEvent.cleanup
           (([(⟨"a", .success, none, .success⟩ : FileSpec), ⟨"b", .failure, none, .success⟩].drop 1).map
             (fun f => tempJpgPath f.name))]) :=
  c6_resume_skips
    [⟨"a", .success, none, .success⟩, ⟨"b", .failure, none, .success⟩] 1
    (by omega) (by simp)

theorem attemptLoop_all_none :
    ∀ attempts : List (Option PyStr), attempts ≠ [] →
      (∀ a ∈ attempts, a = none) → attemptLoop attempts = some otherCategory := by
  intro attempts
  induction attempts with
  | nil => intro h; exact absurd rfl h
  | cons o rest ih =>
      intro _ hall
      have ho : o = none := hall o (List.mem_cons_self o rest)
      subst ho
      show (if rest.isEmpty then some otherCategory else attemptLoop rest) = _
      cases rest with
      | nil => rfl
      | cons b t =>
          rw [if_neg (by simp)]
          exact ih (by simp) (fun a ha => hall a (List.mem_cons_of_mem _ ha))

theorem attemptLoop_last_normalizes_empty :
    ∀ (pre : List (Option PyStr)) (t : PyStr), (∀ a ∈ pre, a = none) →
      fromAiResponse (pyLower (pyStrip t)) 1 = none →
      attemptLoop (pre ++ [some t]) = some otherCategory := by
  intro pre
  induction pre with
  | nil =>
      intro t _ hf
      simp [attemptLoop, hf]
  | cons o rest ih =>
      intro t hall hf
      have ho : o = none := hall o (List.mem_cons_self o rest)
      subst ho
      show (if (rest ++ [some t]).isEmpty then some otherCategory
        else attemptLoop (rest ++ [some t])) = _
      rw [if_neg (by simp)]
      exact ih t (fun a ha => hall a (List.mem_cons_of_mem _ ha)) hf

/-- C3: classification never surfaces as a per-file failure.  If every retry
attempt fails, or every attempt before the last fails and the last response
text fails Category normalization (empty after cleanup), the strategy
returns the sentinel "other" category instead of an error; the file then
still reaches the placement step carrying "other", and whether the file
counts as processed or failed is decided solely by the render and placement
outcomes. -/
theorem c3_classification_never_fails (attempts : List (Option PyStr))
    (h1 : attempts ≠ [])
    (h2 : (∀ a ∈ attempts, a = none) ∨
      (∃ pre t, attempts = pre ++ [some t] ∧ (∀ a ∈ pre, a = none) ∧
        fromAiResponse (pyLower (pyStrip t)) 1 = none)) :
    categorizeImageStrategy true true attempts = some otherCategory ∧
    ∀ (nm : String) (rend copyo : StepOutcome),
      processSingleFile true ⟨nm, rend, categorizeImageStrategy true true attempts, copyo⟩ =
        (decide (rend = .success ∧ copyo = .success),
         if rend = .success then some otherCategory else none) := by
  have hs : categorizeImageStrategy true true attempts = some otherCategory := by
    unfold categorizeImageStrategy
    rw [if_neg (by simp), if_neg (by simp)]
    rcases h2 with hall | ⟨pre, t, rfl, hpre, hf⟩
    · exact attemptLoop_all_none attempts h1 hall
    · exact attemptLoop_last_normalizes_empty pre t hpre hf
  refine ⟨hs, ?_⟩
  intro nm rend copyo
  rw [hs]
  cases rend <;> cases copyo <;> simp [processSingleFile]

/-- Witness for C3 with three failed attempts (the default retry ceiling). -/
theorem c3_witness :
    categorizeImageStrategy true true [none, none, none] = some otherCategory :=
  (c3_classification_never_fails [none, none, none] (by simp)
    (Or.inl (by simp))).1
